import Mathlib

/-!
Verification of the methane-inversion utilities and of the scale-factor
preparation script of this repository.

The embedding models gridded fields (xarray data arrays over the inversion
domain) as flat lists of rationals, one entry per grid cell; elementwise
array arithmetic becomes `List.zipWith`, scalar broadcasting becomes
`List.map`, and Python float arithmetic is modelled by exact rational
arithmetic.  Python float division by zero raises `ZeroDivisionError`, so
the one scalar division of `prepare_sf` is modelled with an `Option`
result.  Files on disk (the sorted HEMCO diagnostics list, the per-period
gridded posteriors, the unit scale factors, areas and mask) are modelled
as the fields of an environment structure.
-/

/-- A gridded field over the inversion domain, one rational per grid cell
(flattened in row-major order, matching a numpy array). -/
abbrev Grid := List ℚ

/-- Elementwise product of two gridded fields (numpy `*` broadcasting on
equal shapes). -/
def gmul (x y : Grid) : Grid := List.zipWith (· * ·) x y

/-- Elementwise sum of two gridded fields (numpy `+`). -/
def gadd (x y : Grid) : Grid := List.zipWith (· + ·) x y

/-- Elementwise quotient of two gridded fields (numpy `/`).  Where the
divisor is zero numpy produces inf/nan; the rational model produces the
junk value 0 there, which no claim below depends on. -/
def gdiv (x y : Grid) : Grid := List.zipWith (· / ·) x y

/-- Scalar times field, `c * arr` in numpy. -/
def smul (c : ℚ) (x : Grid) : Grid := x.map (fun v => c * v)

/-- Field times scalar, `arr * c` in numpy. -/
def smulR (x : Grid) (c : ℚ) : Grid := x.map (fun v => v * c)

/-- Embedding of `sum_total_emissions` (src/inversion_scripts/utils.py,
lines 42-60): `(emissions * areas * mask).sum() * 86400 * 365 * 1e-9`,
the area-weighted masked total converted from kg/s to Tg/y. -/
def sum_total_emissions (emissions areas mask : Grid) : ℚ :=
  let s_per_d : ℚ := 86400
  let d_per_y : ℚ := 365
  let tg_per_kg : ℚ := 1 / 1000000000
  let emissions_in_kg_per_s := gmul (gmul emissions areas) mask
  emissions_in_kg_per_s.sum * s_per_d * d_per_y * tg_per_kg

lemma gmul_nil_left (y : Grid) : gmul [] y = [] := rfl

lemma gmul_cons (a b : ℚ) (x y : Grid) :
    gmul (a :: x) (b :: y) = a * b :: gmul x y := rfl

lemma smul_sum (c : ℚ) (x : Grid) : (smul c x).sum = c * x.sum := by
  induction x with
  | nil => simp [smul]
  | cons a t ih => simp [smul, List.sum_cons, mul_add] at ih ⊢; rw [ih]

lemma gmul_smul_left (c : ℚ) (x y : Grid) :
    gmul (smul c x) y = smul c (gmul x y) := by
  induction x generalizing y with
  | nil => simp [smul, gmul]
  | cons a t ih =>
      cases y with
      | nil => simp [smul, gmul]
      | cons b u => simp [smul, gmul_cons, mul_assoc] at ih ⊢; exact ih u

/-- Multiplying the emissions field by a scalar multiplies the total by
that scalar. -/
lemma sum_total_emissions_smul (c : ℚ) (e a m : Grid) :
    sum_total_emissions (smul c e) a m = c * sum_total_emissions e a m := by
  simp only [sum_total_emissions]
  rw [gmul_smul_left, gmul_smul_left, smul_sum]
  ring

lemma smulR_eq_smul (x : Grid) (c : ℚ) : smulR x c = smul c x := by
  unfold smulR smul
  exact List.map_congr_left (fun v _ => mul_comm v c)

/-- C8: `sum_total_emissions` is homogeneous in its emissions argument:
scaling every emission grid cell by `c` scales the total by `c`; this is
the algebraic fact behind the `lambda_scaler` renormalization. -/
theorem sum_total_emissions_homogeneous (c : ℚ) (emissions areas mask : Grid) :
    sum_total_emissions (smul c emissions) areas mask
      = c * sum_total_emissions emissions areas mask :=
  sum_total_emissions_smul c emissions areas mask

lemma gmul_getD (x y : Grid) (i : ℕ) (hx : i < x.length) (hy : i < y.length) :
    (gmul x y).getD i 0 = x.getD i 0 * y.getD i 0 := by
  induction x generalizing y i with
  | nil => simp at hx
  | cons a t ih =>
      cases y with
      | nil => simp at hy
      | cons b u =>
          cases i with
          | zero => rfl
          | succ j =>
              simp only [gmul_cons, List.getD_cons_succ]
              exact ih u j (Nat.lt_of_succ_lt_succ hx) (Nat.lt_of_succ_lt_succ hy)

lemma gmul_sum_eq_finsum (e a m : Grid) (n : ℕ)
    (he : e.length = n) (ha : a.length = n) (hm : m.length = n) :
    (gmul (gmul e a) m).sum
      = ∑ i ∈ Finset.range n, e.getD i 0 * a.getD i 0 * m.getD i 0 := by
  induction n generalizing e a m with
  | zero =>
      rw [List.length_eq_zero] at he ha hm
      subst he; subst ha; subst hm
      simp [gmul]
  | succ k ih =>
      rcases List.exists_of_length_succ e he with ⟨x, e', rfl⟩
      rcases List.exists_of_length_succ a ha with ⟨y, a', rfl⟩
      rcases List.exists_of_length_succ m hm with ⟨z, m', rfl⟩
      simp only [List.length_cons, Nat.succ.injEq] at he ha hm
      rw [gmul_cons, gmul_cons, List.sum_cons, Finset.sum_range_succ']
      simp only [List.getD_cons_succ, List.getD_cons_zero]
      rw [ih e' a' m' he ha hm]
      ring

/-- C4: `sum_total_emissions` returns the area-weighted masked sum of the
emissions converted to Tg per year, i.e. the sum over all grid cells of
emissions times areas times mask, multiplied by 86400 (seconds per day),
365 (days per year) and 1e-9 (Tg per kg). -/
theorem sum_total_emissions_is_weighted_sum (e a m : Grid) (n : ℕ)
    (he : e.length = n) (ha : a.length = n) (hm : m.length = n) :
    sum_total_emissions e a m
      = (∑ i ∈ Finset.range n, e.getD i 0 * a.getD i 0 * m.getD i 0)
          * 86400 * 365 * (1 / 1000000000) := by
  simp only [sum_total_emissions]
  rw [gmul_sum_eq_finsum e a m n he ha hm]

/-- Witness for C4 at a concrete two-cell grid. -/
theorem sum_total_emissions_is_weighted_sum_witness :
    sum_total_emissions [3, 5] [2, 7] [1, 0]
      = (∑ i ∈ Finset.range 2,
            ([3, 5] : Grid).getD i 0 * ([2, 7] : Grid).getD i 0
              * ([1, 0] : Grid).getD i 0)
          * 86400 * 365 * (1 / 1000000000) :=
  sum_total_emissions_is_weighted_sum [3, 5] [2, 7] [1, 0] 2 rfl rfl rfl

/-- Environment of on-disk inputs read by `prepare_sf`
(src/kf_scripts/prepare_sf.py).  `hemco i` is the `EmisCH4_Total` field
(at time 0) of the `i`-th entry of the sorted HEMCO diagnostics file list
of the prior simulation; `posterior p` is the `ScaleFactor` field of
`kf_inversions/period{p}/gridded_posterior.nc`; `areas` is the `AREA`
field of the preview diagnostics; `mask` is the region-of-interest mask
(1 inside the region, 0 outside). -/
structure KfEnv where
  hemco : ℕ → Grid
  posterior : ℕ → Grid
  areas : Grid
  mask : Grid

/-- Line 85-87 of prepare_sf.py: the posterior emissions multiplied up to
the current period, `posterior_p["ScaleFactor"] * sf["ScaleFactor"] *
original_emis`. -/
def current_posterior_emis (post sf orig : Grid) : Grid :=
  gmul (gmul post sf) orig

/-- Lines 88-91 of prepare_sf.py: `nudge_factor * original_emis +
(1 - nudge_factor) * current_posterior_emis`. -/
def nudged_posterior_emis (nudge_factor : ℚ) (orig current : Grid) : Grid :=
  gadd (smul nudge_factor orig) (smul (1 - nudge_factor) current)

/-- One iteration of the period loop of prepare_sf.py (lines 68-102) for
period `p`: read the original HEMCO emissions from sorted-list entry
`p - 1` and the gridded posterior of period `p`, blend, renormalize by
`lambda_scaler`, and divide by the original emissions to get the new
scale factors.  The scalar quotient `current_total / nudged_total` is a
Python float division, which raises `ZeroDivisionError` on a zero
divisor, hence the `Option` result. -/
def sfStep (env : KfEnv) (nudge_factor : ℚ) (sf : Grid) (p : ℕ) : Option Grid :=
  let original_emis := env.hemco (p - 1)
  let current := current_posterior_emis (env.posterior p) sf original_emis
  let nudged := nudged_posterior_emis nudge_factor original_emis current
  let current_total := sum_total_emissions current env.areas env.mask
  let nudged_total := sum_total_emissions nudged env.areas env.mask
  if nudged_total = 0 then none
  else
    let lambda_scaler := current_total / nudged_total
    let scaled_nudged_posterior_emis := smulR nudged lambda_scaler
    some (gdiv scaled_nudged_posterior_emis original_emis)

/-- The period loop of prepare_sf.py: starting from the loaded scale
factors `sf0`, run `sfStep` for `p = 0 + 1, 1 + 1, ..., (period_number -
2) + 1` (the Python `for p in range(period_number - 1)` followed by
`p = p + 1`).  For `period_number <= 1` the guard `period_number > 1`
skips the loop, which coincides with folding over the empty range. -/
def prepare_sf_loop (env : KfEnv) (nudge_factor : ℚ) (period_number : ℕ)
    (sf0 : Grid) : Option Grid :=
  (List.range (period_number - 1)).foldlM
    (fun sf p => sfStep env nudge_factor sf (p + 1)) sf0

/-- Attributes attached to the scale-factor dataset (lines 118-122 of
prepare_sf.py). -/
structure SFAttrs where
  lat_units : Option String
  lat_long_name : Option String
  lon_units : Option String
  lon_long_name : Option String
  sf_units : Option String
deriving DecidableEq

/-- The scale-factor dataset: the gridded `ScaleFactor` values together
with the netcdf metadata attributes. -/
structure SFDataset where
  scaleFactor : Grid
  attrs : SFAttrs
deriving DecidableEq

/-- Lines 118-122 of prepare_sf.py: set the lat/lon/ScaleFactor metadata
attributes expected by HEMCO. -/
def set_hemco_attrs (d : SFDataset) : SFDataset :=
  { d with attrs :=
      { lat_units := some "degrees_north"
        lat_long_name := some "Latitude"
        lon_units := some "degrees_east"
        lon_long_name := some "Longitude"
        sf_units := some "1" } }

/-- The dataset written by prepare_sf.py to ScaleFactors.nc and to the
archive: the unit scale factors loaded from unit_sf.nc, run through the
period loop, with the HEMCO metadata attributes set. -/
def prepare_sf (env : KfEnv) (unit_sf : SFDataset) (nudge_factor : ℚ)
    (period_number : ℕ) : Option SFDataset :=
  (prepare_sf_loop env nudge_factor period_number unit_sf.scaleFactor).map
    (fun g => set_hemco_attrs { unit_sf with scaleFactor := g })

/-- C1: the `lambda_scaler` rescaling conserves the total regional
emissions: whenever the nudged total is nonzero, the total of the scaled
nudged posterior emissions equals the total of the current posterior
emissions, over any period iteration data. -/
theorem lambda_scaler_conserves_total (nudge_factor : ℚ)
    (post sf orig areas mask : Grid)
    (h : sum_total_emissions
          (nudged_posterior_emis nudge_factor orig
            (current_posterior_emis post sf orig)) areas mask ≠ 0) :
    sum_total_emissions
        (smulR (nudged_posterior_emis nudge_factor orig
                  (current_posterior_emis post sf orig))
          (sum_total_emissions (current_posterior_emis post sf orig) areas mask
            / sum_total_emissions
                (nudged_posterior_emis nudge_factor orig
                  (current_posterior_emis post sf orig)) areas mask))
        areas mask
      = sum_total_emissions (current_posterior_emis post sf orig) areas mask := by
  rw [smulR_eq_smul, sum_total_emissions_smul]
  exact div_mul_cancel₀ _ h

/-- Witness for C1 at a concrete one-cell grid with nonzero nudged
total. -/
theorem lambda_scaler_conserves_total_witness :
    sum_total_emissions
        (nudged_posterior_emis (1/10) [1] (current_posterior_emis [2] [1] [1]))
        [1] [1] ≠ 0
    ∧ sum_total_emissions
        (smulR (nudged_posterior_emis (1/10) [1]
                  (current_posterior_emis [2] [1] [1]))
          (sum_total_emissions (current_posterior_emis [2] [1] [1]) [1] [1]
            / sum_total_emissions
                (nudged_posterior_emis (1/10) [1]
                  (current_posterior_emis [2] [1] [1])) [1] [1]))
        [1] [1]
      = sum_total_emissions (current_posterior_emis [2] [1] [1]) [1] [1] := by
  refine ⟨?_, lambda_scaler_conserves_total (1/10) [2] [1] [1] [1] [1] ?_⟩ <;>
    norm_num [sum_total_emissions, nudged_posterior_emis, current_posterior_emis,
      gmul, gadd, smul]

lemma gadd_cons (a b : ℚ) (x y : Grid) :
    gadd (a :: x) (b :: y) = (a + b) :: gadd x y := rfl

lemma gadd_getD (x y : Grid) (i : ℕ) (hx : i < x.length) (hy : i < y.length) :
    (gadd x y).getD i 0 = x.getD i 0 + y.getD i 0 := by
  induction x generalizing y i with
  | nil => simp at hx
  | cons a t ih =>
      cases y with
      | nil => simp at hy
      | cons b u =>
          cases i with
          | zero => rfl
          | succ j =>
              simp only [gadd_cons, List.getD_cons_succ]
              exact ih u j (Nat.lt_of_succ_lt_succ hx) (Nat.lt_of_succ_lt_succ hy)

lemma smul_getD (c : ℚ) (x : Grid) (i : ℕ) :
    (smul c x).getD i 0 = c * x.getD i 0 := by
  have h := @List.getD_map ℚ ℚ x 0 i (fun v => c * v)
  simpa [smul] using h

lemma length_smul (c : ℚ) (x : Grid) : (smul c x).length = x.length :=
  List.length_map x _

lemma length_gmul (x y : Grid) : (gmul x y).length = min x.length y.length :=
  List.length_zipWith _ x y

lemma length_gadd (x y : Grid) : (gadd x y).length = min x.length y.length :=
  List.length_zipWith _ x y

lemma length_current_posterior_emis (post sf orig : Grid) (n : ℕ)
    (hp : post.length = n) (hs : sf.length = n) (ho : orig.length = n) :
    (current_posterior_emis post sf orig).length = n := by
  simp [current_posterior_emis, length_gmul, hp, hs, ho]

/-- C2: per grid cell, the nudged posterior emission field is the blend
of the original emissions (weight `nudge_factor`) with the current
posterior emissions (weight `1 - nudge_factor`), where the current
posterior emissions are the gridded posterior scale factor times the
accumulated scale factor times the original HEMCO emissions. -/
theorem nudged_posterior_is_blend (nudge_factor : ℚ) (post sf orig : Grid)
    (n i : ℕ) (hp : post.length = n) (hs : sf.length = n)
    (ho : orig.length = n) (hi : i < n) :
    (nudged_posterior_emis nudge_factor orig
        (current_posterior_emis post sf orig)).getD i 0
      = nudge_factor * orig.getD i 0
        + (1 - nudge_factor)
            * (post.getD i 0 * sf.getD i 0 * orig.getD i 0) := by
  have hcur : (current_posterior_emis post sf orig).length = n :=
    length_current_posterior_emis post sf orig n hp hs ho
  unfold nudged_posterior_emis
  rw [gadd_getD _ _ i (by rw [length_smul, ho]; exact hi)
        (by rw [length_smul, hcur]; exact hi),
      smul_getD, smul_getD]
  unfold current_posterior_emis
  rw [gmul_getD _ _ i (by rw [length_gmul, hp, hs]; simpa) (by rw [ho]; exact hi),
      gmul_getD _ _ i (by rw [hp]; exact hi) (by rw [hs]; exact hi)]

/-- Witness for C2 at a concrete one-cell grid. -/
theorem nudged_posterior_is_blend_witness :
    (nudged_posterior_emis (1/4) [5] (current_posterior_emis [3] [2] [5])).getD 0 0
      = (1/4) * ([5] : Grid).getD 0 0
        + (1 - 1/4)
            * (([3] : Grid).getD 0 0 * ([2] : Grid).getD 0 0
                * ([5] : Grid).getD 0 0) :=
  nudged_posterior_is_blend (1/4) [3] [2] [5] 1 0 rfl rfl rfl (by decide)

/-- C7: the only failure of a period iteration of prepare_sf is the
unguarded scalar division `current_total / nudged_total`: the step fails
exactly when the nudged total regional emissions are zero, and there is
no explicit error branch handling that case. -/
theorem sfStep_fails_iff_nudged_total_zero (env : KfEnv) (nudge_factor : ℚ)
    (sf : Grid) (p : ℕ) :
    sfStep env nudge_factor sf p = none
      ↔ sum_total_emissions
          (nudged_posterior_emis nudge_factor (env.hemco (p - 1))
            (current_posterior_emis (env.posterior p) sf (env.hemco (p - 1))))
          env.areas env.mask = 0 := by
  simp only [sfStep]
  split_ifs with h
  · simp [h]
  · simp [h]

lemma foldlM_option_concat {α β : Type} (f : β → α → Option β) (b : β)
    (l : List α) (a : α) :
    (l ++ [a]).foldlM f b = (l.foldlM f b).bind (fun x => f x a) := by
  rw [List.foldlM_append]
  cases l.foldlM f b <;> simp [List.foldlM]

/-- C3: for `period_number = n > 1`, the period loop of prepare_sf runs
over the periods `1, 2, ..., n - 1` in increasing order (each period `p`
reading HEMCO sorted-list entry `p - 1` and the period-`p` gridded
posterior inside `sfStep`), the scale factors entering iteration `p` are
those produced by iteration `p - 1` (the loop for `n` extends the loop
for `n - 1` by one final `sfStep` at period `n - 1`), and the recursion
starts from the loaded scale factors (for `period_number = 1` the loop
body never runs). -/
theorem prepare_sf_sequential (env : KfEnv) (nudge_factor : ℚ) (sf0 : Grid)
    (n : ℕ) (h : 1 < n) :
    prepare_sf_loop env nudge_factor n sf0
        = (List.range' 1 (n - 1)).foldlM
            (fun sf p => sfStep env nudge_factor sf p) sf0
    ∧ prepare_sf_loop env nudge_factor n sf0
        = (prepare_sf_loop env nudge_factor (n - 1) sf0).bind
            (fun sf => sfStep env nudge_factor sf (n - 1))
    ∧ prepare_sf_loop env nudge_factor 1 sf0 = some sf0 := by
  refine ⟨?_, ?_, ?_⟩
  · unfold prepare_sf_loop
    rw [List.range'_eq_map_range, List.foldlM_map]
    have he : (fun (sf : Grid) (p : ℕ) => sfStep env nudge_factor sf (p + 1))
        = fun sf p => sfStep env nudge_factor sf (1 + p) := by
      funext sf p
      rw [Nat.add_comm]
    rw [he]
  · have h2 : n - 1 = (n - 2) + 1 := by omega
    have h3 : n - 1 - 1 = n - 2 := by omega
    unfold prepare_sf_loop
    rw [h3, h2, List.range_succ, foldlM_option_concat]
  · simp [prepare_sf_loop, List.foldlM]

/-- A concrete one-cell environment used to instantiate the prepare_sf
theorems. -/
def testEnv : KfEnv where
  hemco := fun _ => [1]
  posterior := fun _ => [1]
  areas := [1]
  mask := [1]

/-- Witness for C3 at the concrete environment with period_number 2. -/
theorem prepare_sf_sequential_witness :
    prepare_sf_loop testEnv (1/10) 2 [1]
        = (List.range' 1 (2 - 1)).foldlM
            (fun sf p => sfStep testEnv (1/10) sf p) [1]
    ∧ prepare_sf_loop testEnv (1/10) 2 [1]
        = (prepare_sf_loop testEnv (1/10) (2 - 1) [1]).bind
            (fun sf => sfStep testEnv (1/10) sf (2 - 1))
    ∧ prepare_sf_loop testEnv (1/10) 1 [1] = some [1] :=
  prepare_sf_sequential testEnv (1/10) [1] 2 (by decide)

/-- C9: for `period_number <= 1` the loaded unit scale factors pass
through the period loop unchanged, so the dataset written out differs
from the loaded one only in the added lat/lon/ScaleFactor metadata
attributes. -/
theorem prepare_sf_first_period (env : KfEnv) (unit_sf : SFDataset)
    (nudge_factor : ℚ) (n : ℕ) (h : n ≤ 1) :
    prepare_sf env unit_sf nudge_factor n = some (set_hemco_attrs unit_sf)
    ∧ (set_hemco_attrs unit_sf).scaleFactor = unit_sf.scaleFactor := by
  have h0 : n - 1 = 0 := by omega
  refine ⟨?_, rfl⟩
  simp [prepare_sf, prepare_sf_loop, h0, List.foldlM]

/-- A concrete unit scale-factor dataset without attributes. -/
def testUnitSF : SFDataset where
  scaleFactor := [2, 3]
  attrs := ⟨none, none, none, none, none⟩

/-- Witness for C9 at the concrete environment with period_number 1. -/
theorem prepare_sf_first_period_witness :
    prepare_sf testEnv testUnitSF (1/10) 1 = some (set_hemco_attrs testUnitSF)
    ∧ (set_hemco_attrs testUnitSF).scaleFactor = testUnitSF.scaleFactor :=
  prepare_sf_first_period testEnv testUnitSF (1/10) 1 (by decide)

/-- Python `int()` applied to a float: truncation toward zero. -/
def pyInt (q : ℚ) : ℤ := if 0 ≤ q then ⌊q⌋ else ⌈q⌉

lemma pyInt_intCast (z : ℤ) : pyInt (z : ℚ) = z := by
  unfold pyInt
  split_ifs with h
  · exact Int.floor_intCast z
  · exact Int.ceil_intCast z

/-- Model of `np.nanmax` over the state-vector labels: the maximum of
the non-NaN entries (`none` models NaN); `none` when every entry is
NaN (where numpy would raise). -/
def nanmax (labels : List (Option ℚ)) : Option ℚ :=
  (labels.filterMap id).foldl
    (fun acc x =>
      match acc with
      | none => some x
      | some m => some (max m x)) none

/-- Lines 46-48 of prepare_sf.py: `last_ROI_element =
int(np.nanmax(state_vector_labels.values) - config["nBufferClusters"])`. -/
def last_ROI_element (labels : List (Option ℚ)) (nBufferClusters : ℕ) : ℤ :=
  pyInt ((nanmax labels).getD 0 - nBufferClusters)

/-- Line 49 of prepare_sf.py: `mask = state_vector_labels <=
last_ROI_element`; a NaN label compares false in numpy. -/
def roiMask (labels : List (Option ℚ)) (nBufferClusters : ℕ) : List Bool :=
  labels.map
    (fun o =>
      match o with
      | none => false
      | some l => decide (l ≤ (last_ROI_element labels nBufferClusters : ℚ)))

/-- C5: when the maximum state-vector label is the integer `z`, the
region-of-interest mask holds exactly at the grid cells whose label
exists and is at most the maximum label minus `nBufferClusters`; in
particular every cell of the `nBufferClusters` highest-labeled (buffer)
clusters, whose label exceeds that bound, gets mask value false. -/
theorem roiMask_selects_roi (labels : List (Option ℚ)) (nBufferClusters : ℕ)
    (K : ℚ) (z : ℤ) (hmax : nanmax labels = some K) (hz : (z : ℚ) = K)
    (i : ℕ) (o : Option ℚ) (ho : labels[i]? = some o) :
    (roiMask labels nBufferClusters)[i]?
      = some (o.elim false (fun l => decide (l ≤ K - nBufferClusters))) := by
  have hlast : ((last_ROI_element labels nBufferClusters : ℤ) : ℚ)
      = K - nBufferClusters := by
    unfold last_ROI_element
    rw [hmax]
    have hcast : (K - (nBufferClusters : ℚ)) = ((z - nBufferClusters : ℤ) : ℚ) := by
      push_cast
      rw [hz]
    simp only [Option.getD_some, hcast, pyInt_intCast]
  unfold roiMask
  rw [List.getElem?_map, ho, Option.map_some']
  clear ho
  cases o with
  | none => rfl
  | some l => simp [hlast]

/-- Witness for C5: four cells labeled 1, 2, 3 and NaN with one buffer
cluster; the cell labeled 2 is in the region of interest. -/
theorem roiMask_selects_roi_witness :
    (roiMask [some 1, some 2, some 3, none] 1)[1]?
      = some ((some 2 : Option ℚ).elim false
          (fun l => decide (l ≤ 3 - (1 : ℕ)))) :=
  roiMask_selects_roi [some 1, some 2, some 3, none] 1 3 3 (by decide)
    (by norm_num) 1 (some 2) rfl

/-- A TROPOMI satellite pixel, holding the per-pixel fields read by
`filter_tropomi`; `longitude_bounds` is the slice of the bounds array
along its last axis (the corner longitudes of the pixel). -/
structure TropomiPixel where
  longitude : ℚ
  latitude : ℚ
  time : ℚ
  qa_value : ℚ
  longitude_bounds : List ℚ

/-- numpy `ptp` along the last axis: maximum minus minimum of the
corner longitudes of one pixel. -/
def ptp (bounds : List ℚ) : ℚ :=
  bounds.foldl max (bounds.headD 0) - bounds.foldl min (bounds.headD 0)

/-- Embedding of `filter_tropomi` (src/inversion_scripts/utils.py, lines
357-375): the indices (into the flattened swath) of the pixels inside
the lon/lat box, inside the date range, with qa_value at least 0.5 and
not crossing the antimeridian (`ptp` of the corner longitudes below
100). -/
def filter_tropomi (tropomi_data : List TropomiPixel) (xlim ylim : ℚ × ℚ)
    (startdate enddate : ℚ) : List ℕ :=
  (List.range tropomi_data.length).filter fun i =>
    match tropomi_data[i]? with
    | none => false
    | some t =>
        decide (t.longitude > xlim.1) && decide (t.longitude < xlim.2)
          && decide (t.latitude > ylim.1) && decide (t.latitude < ylim.2)
          && decide (t.time ≥ startdate) && decide (t.time ≤ enddate)
          && decide (t.qa_value ≥ 1/2)
          && decide (ptp t.longitude_bounds < 100)

/-- C6: `filter_tropomi` returns exactly the indices of the pixels
satisfying all the filter conjuncts: longitude strictly inside `xlim`,
latitude strictly inside `ylim`, time between `startdate` and `enddate`
inclusive, qa_value at least 0.5, and peak-to-peak corner-longitude
spread strictly below 100. -/
theorem filter_tropomi_mem (tropomi_data : List TropomiPixel)
    (xlim ylim : ℚ × ℚ) (startdate enddate : ℚ) (i : ℕ) :
    i ∈ filter_tropomi tropomi_data xlim ylim startdate enddate
      ↔ ∃ t, tropomi_data[i]? = some t
          ∧ xlim.1 < t.longitude ∧ t.longitude < xlim.2
          ∧ ylim.1 < t.latitude ∧ t.latitude < ylim.2
          ∧ startdate ≤ t.time ∧ t.time ≤ enddate
          ∧ 1/2 ≤ t.qa_value ∧ ptp t.longitude_bounds < 100 := by
  unfold filter_tropomi
  rw [List.mem_filter, List.mem_range]
  cases h : tropomi_data[i]? with
  | none =>
      have hlen := List.getElem?_eq_none_iff.mp h
      simp only [h]
      constructor
      · rintro ⟨hi, hfalse⟩
        exact absurd hfalse (by simp)
      · rintro ⟨t, ht, _⟩
        exact absurd ht (by simp)
  | some t =>
      have hi : i < tropomi_data.length := by
        rcases List.getElem?_eq_some.mp h with ⟨h1, _⟩
        exact h1
      simp only [h, Bool.and_eq_true, decide_eq_true_eq, Option.some.injEq]
      constructor
      · rintro ⟨-, hc⟩
        refine ⟨t, rfl, ?_⟩
        tauto
      · rintro ⟨t', rfl, hc⟩
        refine ⟨hi, ?_⟩
        tauto

/-- One row of the observation dataframe: latitude, longitude and the
observed value (standing for the remaining columns). -/
structure ObsRow where
  lat : ℚ
  lon : ℚ
  obs : ℚ
deriving DecidableEq, Inhabited

/-- The boolean mask data array used by `filter_obs_with_mask`: its lat
and lon coordinate arrays and its gridded values, indexed by
`(lat index, lon index)`. -/
structure ObsMask where
  lat : List ℚ
  lon : List ℚ
  vals : ℕ → ℕ → ℚ

/-- `np.abs(reference_grid - query).argmin()`: the first index of a
coordinate of minimal absolute difference to the query (numpy argmin
returns the first occurrence of the minimum). -/
def argminAbs (grid : List ℚ) (q : ℚ) : ℕ :=
  let diffs := grid.map (fun g => |g - q|)
  diffs.findIdx (fun d => diffs.all (fun e => decide (d ≤ e)))

/-- The mask value at the grid cell nearest to an observation row, the
lat and lon indices chosen independently (lines 81-84 of utils.py). -/
def maskAtObs (m : ObsMask) (o : ObsRow) : ℚ :=
  m.vals (argminAbs m.lat o.lat) (argminAbs m.lon o.lon)

/-- Lines 78-85 of utils.py: the list of row positions whose nearest
grid cell has mask value 0. -/
def bad_ind (m : ObsMask) (df : List ObsRow) : List ℕ :=
  (List.range df.length).filter
    (fun k => decide (maskAtObs m (df.getD k default) = 0))

/-- Lines 88-91 of utils.py: copy the dataframe and drop the rows at the
bad positions (`df_filtered.drop(df_filtered.index[bad_ind])` on a
default range index keeps, in order, exactly the rows whose position is
not in `bad_ind`). -/
def filter_obs_with_mask (m : ObsMask) (df : List ObsRow) : List ObsRow :=
  ((df.enum).filter (fun e => decide (e.1 ∉ bad_ind m df))).map (fun e => e.2)

/-- Embedding of `count_obs_in_mask` (utils.py, lines 94-104): the
number of rows kept by `filter_obs_with_mask`. -/
def count_obs_in_mask (m : ObsMask) (df : List ObsRow) : ℕ :=
  (filter_obs_with_mask m df).length

lemma mem_bad_ind (m : ObsMask) (df : List ObsRow) (k : ℕ) :
    k ∈ bad_ind m df
      ↔ k < df.length ∧ maskAtObs m (df.getD k default) = 0 := by
  simp [bad_ind, List.mem_filter, List.mem_range]

lemma enumFrom_filter_keep (m : ObsMask) (whole : List ObsRow) :
    ∀ (df : List ObsRow) (s : ℕ),
      (∀ j, j < df.length →
        ((s + j) ∈ bad_ind m whole ↔ maskAtObs m (df.getD j default) = 0)) →
      ((df.enumFrom s).filter (fun e => decide (e.1 ∉ bad_ind m whole))).map
          (fun e => e.2)
        = df.filter (fun o => decide (maskAtObs m o ≠ 0)) := by
  intro df
  induction df with
  | nil => intro s _; rfl
  | cons a t ih =>
      intro s hspec
      have h0 : s ∈ bad_ind m whole ↔ maskAtObs m a = 0 := by
        have h := hspec 0 (by simp)
        simpa using h
      have hrec := ih (s + 1) (fun j hj => by
        have h := hspec (j + 1) (by simpa using Nat.succ_lt_succ hj)
        rw [show s + (j + 1) = s + 1 + j by omega] at h
        simpa using h)
      by_cases hk : maskAtObs m a = 0
      · have hmem : s ∈ bad_ind m whole := h0.mpr hk
        simp [List.enumFrom, List.filter_cons, hmem, hk]
        simpa [decide_not] using hrec
      · have hmem : s ∉ bad_ind m whole := fun hs => hk (h0.mp hs)
        simp [List.enumFrom, List.filter_cons, hmem, hk]
        simpa [decide_not] using hrec

/-- C10: `filter_obs_with_mask` keeps, in their original order, exactly
the rows whose nearest grid cell (lat and lon indices minimizing the
absolute coordinate differences independently) has a nonzero mask
value, and `count_obs_in_mask` is the number of rows so kept.  The
model is pure, matching the Python code, which drops rows from a copy
of the input dataframe. -/
theorem filter_obs_with_mask_keeps_nonzero_rows (m : ObsMask)
    (df : List ObsRow) :
    filter_obs_with_mask m df
        = df.filter (fun o => decide (maskAtObs m o ≠ 0))
    ∧ count_obs_in_mask m df
        = (df.filter (fun o => decide (maskAtObs m o ≠ 0))).length := by
  have h1 : filter_obs_with_mask m df
      = df.filter (fun o => decide (maskAtObs m o ≠ 0)) := by
    unfold filter_obs_with_mask
    have henum : df.enum = df.enumFrom 0 := rfl
    rw [henum]
    refine enumFrom_filter_keep m df df 0 (fun j hj => ?_)
    rw [Nat.zero_add, mem_bad_ind]
    exact ⟨fun h => h.2, fun h => ⟨hj, h⟩⟩
  exact ⟨h1, by unfold count_obs_in_mask; rw [h1]⟩
